import Mathlib

/-!
Verification development for the `Project_cpp_iti` telemetry logging pipeline.

The definitions below are a shallow embedding of the C++ sources:
`Phases/Include/RingBuffer.hpp` (the bounded ring buffer and the `RAM_policy`
descriptor), `Phases/Include/safe/SafeFile.hpp` (the `Formatter` template),
`Phases/Include/LogManager.hpp` together with its implementation
(`LogManager::log`, `LogManager::write`, `LogManager::add_sink`),
`Phases/Source/LoggingApp.cpp` (the `TelemetryLoggingApp` constructor, writer
thread and signal handler), `Phases/Source/LogMessage.cpp` (record rendering)
and the `FileSinkImpl` / `ThreadPool` translation units.  Machine floats are
modelled by exact rationals rounded to binary float32 where the code rounds,
plus explicit NaN/infinity markers; strings are Lean strings; mutation is
explicit state passing.
-/

set_option maxRecDepth 20000

/-- Modelled from the spec: the severity enumeration (`severity_type.hpp` is
not among the provided sources).  The spec and every use site
(`Formatter`, `magic_enum::enum_name` rendering) fix the three constants
`Info`, `Warning`, `Critical`. -/
inductive severity_level : Type
  | Info : severity_level
  | Warning : severity_level
  | Critical : severity_level
deriving DecidableEq, Repr

/-- Modelled from the spec: the telemetry-context enumeration
(`telemetry_source.hpp` is not among the provided sources).  The policy
headers reference the constants `CPU`, `RAM`, `GPU`. -/
inductive enum_telem_src : Type
  | CPU : enum_telem_src
  | RAM : enum_telem_src
  | GPU : enum_telem_src
deriving DecidableEq, Repr

/-- The `magic_enum::enum_name` rendering of a telemetry-context constant. -/
def enumName : enum_telem_src → String
  | enum_telem_src.CPU => "CPU"
  | enum_telem_src.RAM => "RAM"
  | enum_telem_src.GPU => "GPU"

/-- The `magic_enum::enum_name` rendering of a severity constant (used by
`operator<<` in `Phases/Source/LogMessage.cpp`). -/
def severityName : severity_level → String
  | severity_level.Info => "Info"
  | severity_level.Warning => "Warning"
  | severity_level.Critical => "Critical"

/-- Rank of a severity under the ordering `Info < Warning < Critical`. -/
def sevRank : severity_level → Nat
  | severity_level.Info => 0
  | severity_level.Warning => 1
  | severity_level.Critical => 2

/-- The body of `Policy::inferSeverity` (identical in `RAM_policy`,
`RingBuffer.hpp` lines 106-110, and its sibling policy structs),
parametrised by the two `static constexpr` thresholds:
`(value >= Critical) ? Critical : (value >= Warning) ? Warning : Info`. -/
def inferSeverity (Warning Critical value : ℚ) : severity_level :=
  if Critical ≤ value then severity_level.Critical
  else if Warning ≤ value then severity_level.Warning
  else severity_level.Info

/-- A parsed `float` value: `std::stof` can yield a NaN, an infinity, or an
ordinary finite value.  Finite values are rationals that are exact binary
float32 values (`stof` rounds the parsed decimal to the nearest float32,
as `strtof` does). -/
inductive FVal : Type
  | nan : FVal
  | posInf : FVal
  | negInf : FVal
  | finite : ℚ → FVal
deriving DecidableEq, Repr

/-- C++ `value >= threshold` on a parsed float against a finite threshold:
false for NaN, true for `+inf`, false for `-inf`. -/
def FVal.geQ : FVal → ℚ → Bool
  | FVal.nan, _ => false
  | FVal.posInf, _ => true
  | FVal.negInf, _ => false
  | FVal.finite q, t => decide (t ≤ q)

/-- A policy descriptor: the `static constexpr` data of the `*_policy`
structs (`context`, `unit`, `Warning`, `Critical`). -/
structure PolicyData : Type where
  context : enum_telem_src
  unit : String
  Warning : ℚ
  Critical : ℚ

/-- `RAM_policy` from `RingBuffer.hpp` lines 98-112: context `RAM`,
unit `"%"`, `Warning = 75.5f` (written `151/2`), `Critical = 90.0f`. -/
def RAM_policy : PolicyData :=
  { context := enum_telem_src.RAM, unit := "%", Warning := mkRat 151 2, Critical := 90 }

/-- Modelled from the spec: `CPU_policy.hpp` is not among the provided
sources; the spec's scenario S1 fixes the CPU policy as warn 75, crit 90,
unit `"%"`. -/
def CPU_policy : PolicyData :=
  { context := enum_telem_src.CPU, unit := "%", Warning := 75, Critical := 90 }

/-- `Policy::inferSeverity` applied to a parsed float value (the C++
comparisons are float comparisons, so NaN compares false). -/
def inferSeverityV (P : PolicyData) (v : FVal) : severity_level :=
  if v.geQ P.Critical then severity_level.Critical
  else if v.geQ P.Warning then severity_level.Warning
  else severity_level.Info

/-- `LogMessage` (`Phases/Include/LogMessage.hpp` flavour used by the
pipeline: string timestamp, `severity_level` level). -/
structure LogMessage : Type where
  app_name : String
  context : String
  message : String
  level : severity_level
  time : String
deriving DecidableEq, Repr

/-- The stream-insertion rendering of a record
(`Phases/Source/LogMessage.cpp`): one bracketed field per component,
`std::endl` at the end. -/
def LogMessage.render (m : LogMessage) : String :=
  "[" ++ m.app_name ++ "] " ++ "[" ++ m.time ++ "] " ++ "[" ++ m.context ++ "] "
    ++ "[" ++ severityName m.level ++ "] " ++ "[" ++ m.message ++ "]" ++ "\n"

/-- `RingBuffer<T>` (`Phases/Include/RingBuffer.hpp`): a vector of
`std::optional<T>` slots plus capacity, read/write indices and a count.
The mutex and condition variable guard the operations in C++; under the
lock each operation is the sequential function modelled here. -/
structure RingBuffer (α : Type) : Type where
  buffer : List (Option α)
  capacity : Nat
  read_index : Nat
  write_index : Nat
  count : Nat
deriving DecidableEq, Repr

/-- The `RingBuffer(capacity)` constructor: `capacity` empty slots, all
indices and the count zero. -/
def RingBuffer.ofCapacity (α : Type) (capacity : Nat) : RingBuffer α :=
  { buffer := List.replicate capacity none
    capacity := capacity
    read_index := 0
    write_index := 0
    count := 0 }

/-- `RingBuffer::tryPush` (`RingBuffer.hpp` lines 37-52): reject when
`count == capacity`; otherwise store at `write_index`, advance it modulo
`capacity`, increment `count`.  Returns the C++ boolean result paired with
the post state. -/
def tryPush {α : Type} (rb : RingBuffer α) (item : α) : Bool × RingBuffer α :=
  if rb.count = rb.capacity then
    (false, rb)
  else
    (true,
      { rb with
        buffer := rb.buffer.set rb.write_index (some item)
        write_index := (rb.write_index + 1) % rb.capacity
        count := rb.count + 1 })

/-- `RingBuffer::trypop` (`RingBuffer.hpp` lines 54-65): return `nullopt`
when `count == 0`; otherwise yield the record at `read_index`, clear the
slot, advance `read_index` modulo `capacity`, decrement `count`.  The C++
`buffer[read_index].value()` presupposes an occupied slot; the model reads
the slot's optional directly (it is occupied in every reachable state, see
`Represents`). -/
def trypop {α : Type} (rb : RingBuffer α) : Option α × RingBuffer α :=
  if rb.count = 0 then
    (none, rb)
  else
    (rb.buffer.getD rb.read_index none,
      { rb with
        buffer := rb.buffer.set rb.read_index none
        read_index := (rb.read_index + 1) % rb.capacity
        count := rb.count - 1 })

example : (tryPush (RingBuffer.ofCapacity Nat 2) 7).1 = true := by decide
example : (trypop ((tryPush (RingBuffer.ofCapacity Nat 2) 7).2)).1 = some 7 := by decide
example : (tryPush (tryPush (RingBuffer.ofCapacity Nat 1) 7).2 8).1 = false := by decide

/-- One step of the client-visible buffer interface: a `tryPush` of a given
item or a `trypop`. -/
inductive BufOp (α : Type) : Type
  | push : α → BufOp α
  | pop : BufOp α
deriving DecidableEq, Repr

/-- Run a sequence of buffer operations from a starting state.  Returns the
final state, the list of successfully pushed items (in push order) and the
list of popped items (in pop order). -/
def runOps {α : Type} : RingBuffer α → List (BufOp α) → RingBuffer α × List α × List α
  | rb, [] => (rb, [], [])
  | rb, BufOp.push x :: ops =>
      let p := tryPush rb x
      let r := runOps p.2 ops
      (r.1, if p.1 then x :: r.2.1 else r.2.1, r.2.2)
  | rb, BufOp.pop :: ops =>
      let p := trypop rb
      let r := runOps p.2 ops
      (r.1, r.2.1,
        match p.1 with
        | some m => m :: r.2.2
        | none => r.2.2)

/-- Drain up to `fuel` records by repeated `trypop`. -/
def drainList {α : Type} : Nat → RingBuffer α → List α
  | 0, _ => []
  | Nat.succ n, rb =>
      match trypop rb with
      | (some m, rb2) => m :: drainList n rb2
      | (none, _) => []

/-- The queue currently held by the buffer, read off by draining it. -/
def RingBuffer.toQueue {α : Type} (rb : RingBuffer α) : List α :=
  drainList rb.count rb

/-- A concrete operation sequence exercising pushes past capacity and pops
past emptiness. -/
def c4ops : List (BufOp Nat) :=
  [BufOp.push 1, BufOp.push 2, BufOp.push 3, BufOp.pop, BufOp.pop, BufOp.pop]

/-- The C `isspace` set in the "C" locale, used by `strtof` to skip leading
whitespace. -/
def isSpaceChar (c : Char) : Bool :=
  c == ' ' || c == '\t' || c == '\n' || c == '\x0b' || c == '\x0c' || c == '\r'

/-- Drop leading whitespace, as `strtof` does before converting. -/
def skipWS : List Char → List Char
  | [] => []
  | c :: cs => if isSpaceChar c then skipWS cs else c :: cs

/-- Numeric value of a digit string (most significant first). -/
def digitsToNat (ds : List Char) : Nat :=
  ds.foldl (fun a c => a * 10 + (c.toNat - 48)) 0

/-- Case-insensitive literal match against the head of the input (pattern
given in lowercase). -/
def matchCI : List Char → List Char → Bool
  | [], _ => true
  | _ :: _, [] => false
  | p :: ps, c :: cs => p == c.toLower && matchCI ps cs

/-- The decimal-significand-with-optional-exponent form accepted by
`strtof`: digits, an optional point with more digits (at least one digit
overall), and an optional well-formed `e`/`E` exponent; trailing
unconvertible characters are ignored.  Returns the exact decimal value as
a numerator/denominator pair (numerator = all significand digits with the
exponent folded in, denominator = the matching power of ten). -/
def parseMagnitude (cs : List Char) : Option (Nat × Nat) :=
  let intD := cs.takeWhile Char.isDigit
  let rest1 := cs.dropWhile Char.isDigit
  let fracD :=
    match rest1 with
    | '.' :: t => t.takeWhile Char.isDigit
    | _ => []
  let rest2 :=
    match rest1 with
    | '.' :: t => t.dropWhile Char.isDigit
    | _ => rest1
  if intD.isEmpty && fracD.isEmpty then none
  else
    let sig : Nat := digitsToNat (intD ++ fracD)
    let den0 : Nat := 10 ^ fracD.length
    some
      (match rest2 with
       | c :: t =>
         if c == 'e' || c == 'E' then
           match t with
           | '+' :: t2 =>
             let ds := t2.takeWhile Char.isDigit
             if ds.isEmpty then (sig, den0) else (sig * 10 ^ digitsToNat ds, den0)
           | '-' :: t2 =>
             let ds := t2.takeWhile Char.isDigit
             if ds.isEmpty then (sig, den0) else (sig, den0 * 10 ^ digitsToNat ds)
           | _ =>
             let ds := t.takeWhile Char.isDigit
             if ds.isEmpty then (sig, den0) else (sig * 10 ^ digitsToNat ds, den0)
         else (sig, den0)
       | [] => (sig, den0))

/-- Fuelled base-2 logarithm: largest `e` with `2 ^ e ≤ n` (for `n ≥ 1`;
any `fuel ≥ n` is enough, since `n` halves each step). -/
def natLog2F : Nat → Nat → Nat
  | 0, _ => 0
  | Nat.succ fuel, n => if n ≤ 1 then 0 else natLog2F fuel (n / 2) + 1

/-- Floor base-2 logarithm of the positive rational `a / b` (both `a` and
`b` at least 1): the unique `e` with `2 ^ e ≤ a / b < 2 ^ (e + 1)`. -/
def floorLog2Q (a b : Nat) : Int :=
  if b ≤ a then Int.ofNat (natLog2F a (a / b))
  else
    let m := natLog2F b (b / a)
    if b = a * 2 ^ m then -(Int.ofNat m) else -(Int.ofNat m) - 1

/-- Round `num / den` (with `den ≥ 1`) to the nearest integer, ties to
even — IEEE-754 default rounding. -/
def roundHalfEven (num den : Nat) : Nat :=
  let q0 := num / den
  let r := num % den
  if 2 * r < den then q0
  else if den < 2 * r then q0 + 1
  else if q0 % 2 = 0 then q0 else q0 + 1

/-- Round the magnitude `a / b` (with `b ≥ 1`) to the nearest binary
float32 (IEEE-754 binary32: 24-bit significand, minimum exponent -126,
subnormals down to `2 ^ (-149)`), returned as a numerator/denominator
pair.  Callers reject overflow beforehand, so the exponent here is at
most 127. -/
def roundF32nd (a b : Nat) : Nat × Nat :=
  if a = 0 then (0, 1)
  else
    let e : Int := floorLog2Q a b
    let s : Int := if e < -126 then 149 else 23 - e
    match s with
    | Int.ofNat k => (roundHalfEven (a * 2 ^ k) b, 2 ^ k)
    | Int.negSucc k => (roundHalfEven a (b * 2 ^ (k + 1)) * 2 ^ (k + 1), 1)

/-- Float32 overflow threshold: magnitudes at or above `2^128 - 2^103`
round to infinity, making `strtof` report out-of-range (and `std::stof`
throw, which `Formatter::format` catches). -/
def fltOverflow : ℚ := mkRat ((2 : Int) ^ 128 - (2 : Int) ^ 103) 1

/-- Model of `std::stof` (C `strtof`): skip leading whitespace, take an
optional sign, then the longest valid prefix among an infinity spelling,
a NaN spelling, or a decimal significand with optional exponent; anything
after the matched prefix is ignored.  Returns `none` when no conversion
can be performed (`invalid_argument`) or on float-range overflow
(`out_of_range`); `Formatter::format` catches both exceptions.  A finite
result is the parsed decimal rounded to the nearest binary float32
(overflow to infinity happens exactly when the magnitude reaches
`2 ^ 128 - 2 ^ 103`, which the guard tests on the exact value).
Hexadecimal float spellings and the implementation-defined
underflow-range throw are not modelled (no claim depends on them). -/
def stof (s : String) : Option FVal :=
  let cs := skipWS s.data
  let neg : Bool :=
    match cs with
    | '-' :: _ => true
    | _ => false
  let cs1 : List Char :=
    match cs with
    | '+' :: t => t
    | '-' :: t => t
    | _ => cs
  if matchCI ['i', 'n', 'f'] cs1 then
    some (if neg then FVal.negInf else FVal.posInf)
  else if matchCI ['n', 'a', 'n'] cs1 then
    some FVal.nan
  else
    match parseMagnitude cs1 with
    | none => none
    | some nd =>
      if fltOverflow ≤ mkRat (Int.ofNat nd.1) nd.2 then none
      else
        let r := roundF32nd nd.1 nd.2
        some (FVal.finite
          (mkRat (if neg then -(Int.ofNat r.1) else Int.ofNat r.1) r.2))

/-- Left-pad a fractional part to six digits. -/
def padZeros6 (n : Nat) : String :=
  let s := Nat.repr n
  String.mk (List.replicate (6 - s.length) '0') ++ s

/-- Fixed six-decimal rendering of a finite value, as `std::to_string`
(glibc `%f`) produces for a double: round `|q| * 10 ^ 6` to the nearest
integer, ties to even, then print integer part, point, and the
six-digit fractional part. -/
def toStringFixed6 (q : ℚ) : String :=
  let n : Nat := roundHalfEven (q.num.natAbs * 1000000) q.den
  let ip := n / 1000000
  let fp := n % 1000000
  (if q.num < 0 then "-" else "") ++ Nat.repr ip ++ "." ++ padZeros6 fp

/-- `std::to_string` applied to a parsed float (glibc renders NaN as
`"nan"` and infinities as `"inf"`/`"-inf"`). -/
def fvalToString : FVal → String
  | FVal.nan => "nan"
  | FVal.posInf => "inf"
  | FVal.negInf => "-inf"
  | FVal.finite q => toStringFixed6 q

/-- `Formatter<Policy>::valueDescription` (`SafeFile.hpp` lines 80-95):
label by severity, then `std::to_string(value)` and the policy unit. -/
def valueDescription (P : PolicyData) (value : FVal) (sev : severity_level) : String :=
  let val_str := fvalToString value
  let unit := P.unit
  match sev with
  | severity_level.Critical => "Critical: " ++ val_str ++ unit
  | severity_level.Warning => "Warning: " ++ val_str ++ unit
  | severity_level.Info => "Normal: " ++ val_str ++ unit

/-- `Formatter<Policy>::format` (`SafeFile.hpp` lines 52-77): parse with
`std::stof` (an exception yields `nullopt`), infer the severity, build
the description, set `app_name` and `context` both to
`magic_enum::enum_name(Policy::context)`, and stamp with
`currentTimeStamp()` — the wall-clock read is modelled by the `now`
parameter. -/
def Formatter.format (P : PolicyData) (now : String) (raw_value : String) : Option LogMessage :=
  match stof raw_value with
  | none => none
  | some value =>
    let sev := inferSeverityV P value
    let description := valueDescription P value sev
    let app_name := enumName P.context
    let contextStr := enumName P.context
    some
      { app_name := app_name
        context := contextStr
        message := description
        level := sev
        time := now }

/-- `ThreadPool` (`ThreadPool.hpp`): the constructor spawns `thread_count`
worker threads that service a shared task queue; only the worker count is
relevant to the claims. -/
structure ThreadPool : Type where
  workers : Nat
deriving DecidableEq, Repr

/-- `LogManager` state (`LogManager.hpp` with the `Phases` implementation
in `unnamed/part_005`): the sinks (each abstracted by the list of records
it has received through `ILogSink::write`), the ring buffer of messages,
the worker pool, the number of tasks handed to `pool->push_task`, and the
diagnostic lines printed to `std::cout` by `log`. -/
structure LogManager : Type where
  sinksOut : List (List LogMessage)
  messages : RingBuffer LogMessage
  pool : ThreadPool
  pendingTasks : Nat
  stdoutLines : List String
deriving DecidableEq, Repr

/-- The `LogManager(size_t thread_count, size_t capacity)` constructor
(`LogManager.hpp` lines 18-19): a pool of `thread_count` workers and a
message buffer of `capacity` slots; no sinks yet. -/
def LogManager.ctor (thread_count capacity : Nat) : LogManager :=
  { sinksOut := []
    messages := RingBuffer.ofCapacity LogMessage capacity
    pool := { workers := thread_count }
    pendingTasks := 0
    stdoutLines := [] }

/-- `LogManager::add_sink`: appends one (fresh) sink. -/
def LogManager.add_sink (lm : LogManager) : LogManager :=
  { lm with sinksOut := lm.sinksOut ++ [[]] }

/-- The logger creation inside the `TelemetryLoggingApp` constructor
(`LoggingApp.cpp` line 18):
`std::make_unique<LogManager>(buffer_capacity, thread_pool_size)` — the
actual arguments in that order bind the formals `(thread_count,
capacity)`. -/
def TelemetryLoggingApp.makeLogger (buffer_capacity thread_pool_size : Nat) : LogManager :=
  LogManager.ctor buffer_capacity thread_pool_size

/-- `LogManager::log` (`unnamed/part_005` lines 8-16): one `tryPush`; if
it fails, print one diagnostic line to `std::cout`; in either case hand
one drain task to `pool->push_task`. -/
def LogManager.log (lm : LogManager) (message : LogMessage) : LogManager :=
  let p := tryPush lm.messages message
  { lm with
    messages := p.2
    stdoutLines :=
      if p.1 then lm.stdoutLines
      else lm.stdoutLines ++ ["[LogManager] buffer full, message dropped\n"]
    pendingTasks := lm.pendingTasks + 1 }

/-- The drain loop of `LogManager::write` (`unnamed/part_005` lines
18-27): pop until `trypop` yields nothing, writing each record to every
sink in order.  `fuel` bounds the iterations; the sequential loop pops at
most `count` records, so running it with `fuel = count` is exact. -/
def writeFuel :
    Nat → RingBuffer LogMessage → List (List LogMessage) →
      RingBuffer LogMessage × List (List LogMessage)
  | 0, rb, sinks => (rb, sinks)
  | Nat.succ fuel, rb, sinks =>
    match trypop rb with
    | (some m, rb2) => writeFuel fuel rb2 (sinks.map (fun s => s ++ [m]))
    | (none, _) => (rb, sinks)

/-- `LogManager::write`: drain the buffer into the sinks. -/
def LogManager.write (lm : LogManager) : LogManager :=
  let r := writeFuel lm.messages.count lm.messages lm.sinksOut
  { lm with messages := r.1, sinksOut := r.2 }

/-- `TelemetryLoggingApp` shutdown-relevant state: the logger, the atomic
`isRunning` flag, and whether the process is still alive (`exit(0)` ends
it). -/
structure AppState : Type where
  logger : LogManager
  isRunning : Bool
  processAlive : Bool
deriving DecidableEq, Repr

/-- `TelemetryLoggingApp::signalHandler` (`LoggingApp.cpp` lines 185-189):
clears `isRunning` through the global app pointer and then calls
`exit(0)`, which terminates the process — nothing after it (no thread
join, no final drain) executes. -/
def TelemetryLoggingApp.signalHandler (st : AppState) : AppState :=
  { st with isRunning := false, processAlive := false }

/-- The writer thread's final flush (`LoggingApp.cpp` lines 172-183, whose
last statement carries the comment "flush remaining messages on
shutdown"): after the loop observes `isRunning == false` it runs
`logger->write()` once — provided the process is still alive to execute
it. -/
def writerFinalFlush (st : AppState) : AppState :=
  if st.processAlive then { st with logger := st.logger.write } else st

/-- `FileSinkImpl` (`unnamed/part_011`): the `std::ofstream` member,
abstracted by the destination file's contents and the stream's good
state. -/
structure FileSinkImpl : Type where
  fileContents : String
  good : Bool
deriving DecidableEq, Repr

/-- The `FileSinkImpl(filename)` constructor:
`file(std::ofstream(filename))` with the default `out` open mode — on a
successful open it creates or truncates the file, discarding the prior
bytes `prior`; if the open fails the construction still succeeds (a
default `std::ofstream` does not throw) with a failed stream and the file
untouched. -/
def FileSinkImpl.ctor (prior : String) (openOK : Bool) : FileSinkImpl :=
  if openOK then { fileContents := "", good := true }
  else { fileContents := prior, good := false }

/-- `FileSinkImpl::write`: `file << message` appends the rendered record
on a good stream; insertion on a failed stream writes nothing. -/
def FileSinkImpl.write (s : FileSinkImpl) (message : LogMessage) : FileSinkImpl :=
  if s.good then { s with fileContents := s.fileContents ++ message.render }
  else s

/-- Sample record used by the concrete shutdown and drop scenarios. -/
def msgA : LogMessage :=
  { app_name := "RAM", context := "RAM", message := "Normal: 42.000000%",
    level := severity_level.Info, time := "ts" }

/-- A running app whose logger has one attached sink and whose capacity-4
buffer holds one successfully pushed record. -/
def c2state : AppState :=
  { logger := ((LogManager.ctor 2 4).add_sink).log msgA
    isRunning := true
    processAlive := true }

/-- Slot lookup after `List.set` at the same (in-range) index. -/
theorem listGetD_set_self {α : Type} (l : List (Option α)) (i : Nat) (x : Option α)
    (h : i < l.length) : (l.set i x).getD i none = x := by
  induction l generalizing i with
  | nil => simp at h
  | cons a t ih =>
    cases i with
    | zero => simp
    | succ n =>
      simp only [List.set, List.getD_cons_succ]
      exact ih n (by simpa using h)

/-- Slot lookup after `List.set` at a different index. -/
theorem listGetD_set_ne {α : Type} (l : List (Option α)) {i j : Nat} (x : Option α)
    (h : i ≠ j) : (l.set i x).getD j none = l.getD j none := by
  induction l generalizing i j with
  | nil => rfl
  | cons a t ih =>
    cases i with
    | zero =>
      cases j with
      | zero => exact absurd rfl h
      | succ m => simp
    | succ n =>
      cases j with
      | zero => simp
      | succ m =>
        simp only [List.set, List.getD_cons_succ]
        exact ih (by omega)

/-- Every lookup in an all-empty slot vector yields `none`. -/
theorem listGetD_replicate {α : Type} (N i : Nat) :
    (List.replicate N (none : Option α)).getD i none = none := by
  induction N generalizing i with
  | zero => rfl
  | succ n ih =>
    cases i with
    | zero => simp [List.replicate]
    | succ m => simpa [List.replicate] using ih m

/-- Two in-range offsets into the circular window coincide only if equal. -/
theorem window_inj {N j k : Nat} (r : Nat) (hj : j < N) (hk : k < N)
    (h : (r + j) % N = (r + k) % N) : j = k := by
  have h2 : j ≡ k [MOD N] := Nat.ModEq.add_left_cancel' r h
  have h3 : j % N = k % N := h2
  rwa [Nat.mod_eq_of_lt hj, Nat.mod_eq_of_lt hk] at h3

/-- Abstraction relation: the ring buffer `rb` represents the FIFO queue `q`
(front of `q` = next record popped).  It packages the documented invariant
of `RingBuffer`: indices in range, `write_index` a `count`-offset of
`read_index` modulo the capacity, occupied slots exactly the circular
window of length `count` starting at `read_index`, holding `q` in order. -/
def Represents {α : Type} (rb : RingBuffer α) (q : List α) : Prop :=
  rb.buffer.length = rb.capacity ∧
  rb.read_index < rb.capacity ∧
  rb.write_index = (rb.read_index + rb.count) % rb.capacity ∧
  rb.count = q.length ∧
  rb.count ≤ rb.capacity ∧
  (∀ j : Nat, ∀ hj : j < q.length,
      rb.buffer.getD ((rb.read_index + j) % rb.capacity) none = some (q.get ⟨j, hj⟩)) ∧
  (∀ i : Nat, i < rb.capacity →
      (∀ j : Nat, j < q.length → i ≠ (rb.read_index + j) % rb.capacity) →
      rb.buffer.getD i none = none)

/-- A freshly constructed buffer of positive capacity represents the empty
queue. -/
theorem represents_ofCapacity (α : Type) (N : Nat) (hN : 0 < N) :
    Represents (RingBuffer.ofCapacity α N) [] := by
  refine ⟨by simp [RingBuffer.ofCapacity], by simpa [RingBuffer.ofCapacity] using hN,
    by simp [RingBuffer.ofCapacity], rfl, by simp [RingBuffer.ofCapacity], ?_, ?_⟩
  · intro j hj; simp at hj
  · intro i _ _; exact listGetD_replicate N i

/-- `tryPush` on a full buffer rejects and leaves the state unchanged. -/
theorem tryPush_of_full {α : Type} (rb : RingBuffer α) (x : α)
    (h : rb.count = rb.capacity) : tryPush rb x = (false, rb) := by
  simp [tryPush, h]

/-- In a reachable non-full state the slot at `write_index` is vacant: the
push target never holds an unpopped record. -/
theorem slot_at_write_vacant {α : Type} {rb : RingBuffer α} {q : List α}
    (h : Represents rb q) (hlt : rb.count < rb.capacity) :
    rb.buffer.getD rb.write_index none = none := by
  obtain ⟨hlen, hr, hw, hcnt, hle, hvals, hemp⟩ := h
  rw [hw]
  apply hemp
  · exact Nat.mod_lt _ (Nat.lt_of_le_of_lt (Nat.zero_le _) hr)
  · intro j hj heq
    have hjN : j < rb.capacity := by omega
    have := window_inj rb.read_index hlt hjN heq
    omega

/-- `tryPush` on a reachable non-full state succeeds and the new state
represents the queue with the item appended. -/
theorem tryPush_of_notFull {α : Type} {rb : RingBuffer α} {q : List α} (x : α)
    (h : Represents rb q) (hlt : rb.count < rb.capacity) :
    (tryPush rb x).1 = true ∧ Represents (tryPush rb x).2 (q ++ [x]) := by
  obtain ⟨hlen, hr, hw, hcnt, hle, hvals, hemp⟩ := h
  have hne : ¬ rb.count = rb.capacity := by omega
  have hN : 0 < rb.capacity := by omega
  have hpush : tryPush rb x =
      (true,
        { rb with
          buffer := rb.buffer.set rb.write_index (some x)
          write_index := (rb.write_index + 1) % rb.capacity
          count := rb.count + 1 }) := by
    simp [tryPush, hne]
  rw [hpush]
  refine ⟨rfl, ?_, ?_, ?_, ?_, ?_, ?_, ?_⟩
  · simpa using hlen
  · simpa using hr
  · show (rb.write_index + 1) % rb.capacity = (rb.read_index + (rb.count + 1)) % rb.capacity
    rw [hw, Nat.mod_add_mod]
    rfl
  · show rb.count + 1 = (q ++ [x]).length
    simp [hcnt]
  · show rb.count + 1 ≤ rb.capacity
    omega
  · intro j hj
    simp only [List.length_append, List.length_singleton] at hj
    show (rb.buffer.set rb.write_index (some x)).getD ((rb.read_index + j) % rb.capacity) none
        = some ((q ++ [x]).get ⟨j, by simpa using hj⟩)
    by_cases hcase : j < q.length
    · have hjN : j < rb.capacity := by omega
      have hslot : rb.write_index ≠ (rb.read_index + j) % rb.capacity := by
        rw [hw]
        intro habs
        have := window_inj rb.read_index hlt hjN habs
        omega
      rw [listGetD_set_ne _ _ hslot, hvals j hcase]
      congr 1
      exact (List.get_append_left q [x] hcase).symm
    · have hj' : j = q.length := by omega
      subst hj'
      have hslot : (rb.read_index + q.length) % rb.capacity = rb.write_index := by
        rw [hw, hcnt]
      rw [hslot, listGetD_set_self _ _ _ (by rw [hlen, hw]; exact Nat.mod_lt _ hN)]
      congr 1
      have : (q ++ [x]).get ⟨q.length, by simp⟩ = x := by simp
      exact this.symm
  · intro i hi hout
    simp only [List.length_append, List.length_singleton] at hout
    have hi' : i < rb.capacity := hi
    have hiw : i ≠ rb.write_index := by
      have := hout rb.count (by omega)
      rwa [← hw] at this
    show (rb.buffer.set rb.write_index (some x)).getD i none = none
    rw [listGetD_set_ne _ _ (fun hh => hiw hh.symm)]
    exact hemp i hi' (fun j hj => hout j (by omega))

/-- `trypop` on an empty buffer returns `nullopt` and leaves the state
unchanged. -/
theorem trypop_of_empty {α : Type} (rb : RingBuffer α) (h : rb.count = 0) :
    trypop rb = (none, rb) := by
  simp [trypop, h]

/-- `trypop` on a reachable non-empty state yields the oldest record and the
new state represents the queue's tail. -/
theorem trypop_of_cons {α : Type} {rb : RingBuffer α} {x : α} {q : List α}
    (h : Represents rb (x :: q)) :
    (trypop rb).1 = some x ∧ Represents (trypop rb).2 q := by
  obtain ⟨hlen, hr, hw, hcnt, hle, hvals, hemp⟩ := h
  simp only [List.length_cons] at hcnt
  have hne : ¬ rb.count = 0 := by omega
  have hN : 0 < rb.capacity := by omega
  have hhead : rb.buffer.getD rb.read_index none = some x := by
    have := hvals 0 (by simp)
    simpa [Nat.mod_eq_of_lt hr] using this
  have hpop : trypop rb =
      (some x,
        { rb with
          buffer := rb.buffer.set rb.read_index none
          read_index := (rb.read_index + 1) % rb.capacity
          count := rb.count - 1 }) := by
    simp only [trypop, if_neg hne, hhead]
  rw [hpop]
  refine ⟨rfl, ?_, ?_, ?_, ?_, ?_, ?_, ?_⟩
  · simpa using hlen
  · show (rb.read_index + 1) % rb.capacity < rb.capacity
    exact Nat.mod_lt _ hN
  · show rb.write_index = ((rb.read_index + 1) % rb.capacity + (rb.count - 1)) % rb.capacity
    rw [hw, Nat.mod_add_mod]
    congr 1
    omega
  · show rb.count - 1 = q.length
    omega
  · show rb.count - 1 ≤ rb.capacity
    omega
  · intro j hj
    show (rb.buffer.set rb.read_index none).getD
        (((rb.read_index + 1) % rb.capacity + j) % rb.capacity) none = some (q.get ⟨j, hj⟩)
    have hslot : ((rb.read_index + 1) % rb.capacity + j) % rb.capacity
        = (rb.read_index + (j + 1)) % rb.capacity := by
      rw [Nat.mod_add_mod]
      congr 1
      omega
    rw [hslot]
    have hj1N : j + 1 < rb.capacity ∨ ¬ (j + 1 < rb.capacity) := em _
    have hj1 : j + 1 < rb.capacity := by omega
    have hner : rb.read_index ≠ (rb.read_index + (j + 1)) % rb.capacity := by
      intro habs
      have h0 : (rb.read_index + 0) % rb.capacity
          = (rb.read_index + (j + 1)) % rb.capacity := by
        rwa [Nat.add_zero, Nat.mod_eq_of_lt hr]
      have := window_inj rb.read_index hN hj1 h0
      omega
    rw [listGetD_set_ne _ _ hner]
    have hstep := hvals (j + 1) (by simpa using Nat.succ_lt_succ hj)
    simpa using hstep
  · intro i hi hout
    have hi' : i < rb.capacity := hi
    show (rb.buffer.set rb.read_index none).getD i none = none
    by_cases hir : i = rb.read_index
    · subst hir
      exact listGetD_set_self _ _ _ (by omega)
    · rw [listGetD_set_ne _ _ (fun hh => hir hh.symm)]
      apply hemp i hi'
      intro j hj
      simp only [List.length_cons] at hj
      cases j with
      | zero =>
        rw [Nat.add_zero, Nat.mod_eq_of_lt hr]
        exact hir
      | succ m =>
        have hm := hout m (by omega)
        intro habs
        apply hm
        rw [habs, Nat.mod_add_mod]
        congr 1
        omega

/-- Draining a reachable state reads back exactly the represented queue. -/
theorem toQueue_of_represents {α : Type} {rb : RingBuffer α} {q : List α}
    (h : Represents rb q) : rb.toQueue = q := by
  induction q generalizing rb with
  | nil =>
    have hc : rb.count = 0 := by
      obtain ⟨_, _, _, hcnt, _, _, _⟩ := h
      simpa using hcnt
    simp [RingBuffer.toQueue, hc, drainList]
  | cons x q ih =>
    obtain ⟨hpop, hrep⟩ := trypop_of_cons h
    have hc : rb.count = q.length + 1 := by
      obtain ⟨_, _, _, hcnt, _, _, _⟩ := h
      simpa using hcnt
    cases hp : trypop rb with
    | mk popped rb2 =>
      rw [hp] at hpop hrep
      have hpx : popped = some x := by simpa using hpop
      subst hpx
      have hrep2 : Represents rb2 q := by simpa using hrep
      have hc2 : rb2.count = q.length := by
        have hh : (trypop rb).2.count = q.length := by
          simp [trypop, hc]
        rw [hp] at hh
        simpa using hh
      rw [RingBuffer.toQueue, hc]
      simp only [drainList, hp]
      rw [← hc2]
      exact congrArg (fun t => x :: t) (ih hrep2)

/-- Running any operation sequence from a reachable state keeps the state
reachable and satisfies the ledger equation: prior queue plus successful
pushes equals pops plus final queue. -/
theorem runOps_ledger {α : Type} (ops : List (BufOp α)) :
    ∀ (rb : RingBuffer α) (q : List α), Represents rb q →
      ∃ qf : List α,
        Represents (runOps rb ops).1 qf ∧
        q ++ (runOps rb ops).2.1 = (runOps rb ops).2.2 ++ qf := by
  induction ops with
  | nil =>
    intro rb q h
    exact ⟨q, h, by simp [runOps]⟩
  | cons op ops ih =>
    intro rb q h
    cases op with
    | push x =>
      by_cases hfull : rb.count = rb.capacity
      · have hp := tryPush_of_full rb x hfull
        obtain ⟨qf, hrep, heq⟩ := ih rb q h
        exact ⟨qf, by simpa [runOps, hp] using hrep, by simpa [runOps, hp] using heq⟩
      · have hlt : rb.count < rb.capacity := by
          obtain ⟨_, _, _, _, hle, _, _⟩ := h
          omega
        obtain ⟨hok, hrep2⟩ := tryPush_of_notFull x h hlt
        cases hp : tryPush rb x with
        | mk ok rb2 =>
          rw [hp] at hok hrep2
          obtain ⟨qf, hrep, heq⟩ := ih rb2 (q ++ [x]) hrep2
          refine ⟨qf, by simpa [runOps, hp, hok] using hrep, ?_⟩
          have hgoal := heq
          rw [List.append_assoc] at hgoal
          simpa [runOps, hp, hok] using hgoal
    | pop =>
      cases q with
      | nil =>
        have hc : rb.count = 0 := by
          obtain ⟨_, _, _, hcnt, _, _, _⟩ := h
          simpa using hcnt
        have hp := trypop_of_empty rb hc
        obtain ⟨qf, hrep, heq⟩ := ih rb [] h
        exact ⟨qf, by simpa [runOps, hp] using hrep, by simpa [runOps, hp] using heq⟩
      | cons y q2 =>
        obtain ⟨hpop, hrep2⟩ := trypop_of_cons h
        cases hp : trypop rb with
        | mk popped rb2 =>
          rw [hp] at hpop hrep2
          obtain ⟨qf, hrep, heq⟩ := ih rb2 q2 hrep2
          refine ⟨qf, by simpa [runOps, hp] using hrep, ?_⟩
          simpa [runOps, hp, hpop] using heq

/-- C3: for every reachable buffer state, `tryPush` returns false exactly
when the count equals the capacity; on a false return the state (contents,
indices, count) is unchanged; no stored, unpopped record is overwritten
(the slot written on success is vacant); on a true return the record is
stored at the write index, the write index advances modulo the capacity,
the count increments, and the buffer then represents the queue with the
record appended. -/
theorem claim_C3_tryPush {α : Type} (rb : RingBuffer α) (q : List α) (x : α)
    (h : Represents rb q) :
    ((tryPush rb x).1 = false ↔ rb.count = rb.capacity)
  ∧ (rb.count = rb.capacity → (tryPush rb x).2 = rb)
  ∧ (rb.count ≠ rb.capacity →
        rb.buffer.getD rb.write_index none = none
      ∧ (tryPush rb x).2.buffer = rb.buffer.set rb.write_index (some x)
      ∧ (tryPush rb x).2.write_index = (rb.write_index + 1) % rb.capacity
      ∧ (tryPush rb x).2.count = rb.count + 1
      ∧ Represents (tryPush rb x).2 (q ++ [x])) := by
  by_cases hfull : rb.count = rb.capacity
  · have hp := tryPush_of_full rb x hfull
    refine ⟨by simp [hp, hfull], fun _ => by rw [hp], fun hne => absurd hfull hne⟩
  · have hlt : rb.count < rb.capacity := by
      obtain ⟨_, _, _, _, hle, _, _⟩ := h
      omega
    obtain ⟨hok, hrep⟩ := tryPush_of_notFull x h hlt
    refine ⟨by simp [hok, hfull], fun hc => absurd hc hfull, fun _ => ?_⟩
    exact ⟨slot_at_write_vacant h hlt, by simp [tryPush, hfull],
      by simp [tryPush, hfull], by simp [tryPush, hfull], hrep⟩

/-- Witness for C3 at a concrete buffer. -/
theorem claim_C3_tryPush_witness :
    ((tryPush (RingBuffer.ofCapacity Nat 2) 5).1 = false
      ↔ (RingBuffer.ofCapacity Nat 2).count = (RingBuffer.ofCapacity Nat 2).capacity) :=
  (claim_C3_tryPush (RingBuffer.ofCapacity Nat 2) [] 5
    (represents_ofCapacity Nat 2 (by decide))).1

/-- C4: for every sequence of `tryPush`/`trypop` operations starting from a
fresh buffer, the successfully pushed records equal the popped records
followed by the records still held (FIFO order, nothing lost or
duplicated); successful pushes = pops + current count; and `trypop` on an
empty buffer returns empty with no state change. -/
theorem claim_C4_fifo {α : Type} (N : Nat) (hN : 0 < N) (ops : List (BufOp α)) :
    ((runOps (RingBuffer.ofCapacity α N) ops).2.1
       = (runOps (RingBuffer.ofCapacity α N) ops).2.2
           ++ (runOps (RingBuffer.ofCapacity α N) ops).1.toQueue)
  ∧ ((runOps (RingBuffer.ofCapacity α N) ops).2.1.length
       = (runOps (RingBuffer.ofCapacity α N) ops).2.2.length
           + (runOps (RingBuffer.ofCapacity α N) ops).1.count)
  ∧ (∀ rb : RingBuffer α, rb.count = 0 → trypop rb = (none, rb)) := by
  obtain ⟨qf, hrep, heq⟩ :=
    runOps_ledger ops (RingBuffer.ofCapacity α N) [] (represents_ofCapacity α N hN)
  simp only [List.nil_append] at heq
  have htq : (runOps (RingBuffer.ofCapacity α N) ops).1.toQueue = qf :=
    toQueue_of_represents hrep
  have hcq : (runOps (RingBuffer.ofCapacity α N) ops).1.count = qf.length := by
    obtain ⟨_, _, _, hcnt, _, _, _⟩ := hrep
    exact hcnt
  refine ⟨by rw [htq]; exact heq, ?_, fun rb hc => trypop_of_empty rb hc⟩
  rw [heq, hcq]
  simp

/-- Witness for C4 on a capacity-2 buffer: pushes 1, 2 succeed, 3 is
rejected, and the pops return 1 then 2 then nothing. -/
theorem claim_C4_fifo_witness :
    (runOps (RingBuffer.ofCapacity Nat 2) c4ops).2.1
      = (runOps (RingBuffer.ofCapacity Nat 2) c4ops).2.2
          ++ (runOps (RingBuffer.ofCapacity Nat 2) c4ops).1.toQueue :=
  (claim_C4_fifo 2 (by decide) c4ops).1

example : (runOps (RingBuffer.ofCapacity Nat 2) c4ops).2.1 = [1, 2] := by decide
example : (runOps (RingBuffer.ofCapacity Nat 2) c4ops).2.2 = [1, 2] := by decide

/-- Skipping whitespace consumes an all-whitespace character list
entirely. -/
theorem skipWS_of_all_space (cs : List Char) (h : cs.all isSpaceChar = true) :
    skipWS cs = [] := by
  induction cs with
  | nil => rfl
  | cons c t ih =>
    rw [List.all_cons, Bool.and_eq_true] at h
    simp [skipWS, h.1, ih h.2]

/-- An all-whitespace string fails `std::stof`: nothing convertible
remains after the whitespace skip. -/
theorem stof_of_all_space (s : String) (h : s.data.all isSpaceChar = true) :
    stof s = none := by
  have h0 : skipWS s.data = [] := skipWS_of_all_space s.data h
  simp [stof, h0, matchCI, parseMagnitude]

/-- C5 (amended): the Formatter returns empty exactly when `std::stof`
fails on the raw string (no convertible numeric prefix after optional
whitespace and sign, or float-range overflow); the empty string,
whitespace-only strings and `"abc"` all yield empty, but `"NaN"` is
accepted by `std::stof` and yields an Info record; severity inference and
rendering never fail (every parse success produces a record). -/
theorem claim_C5_parse_failure :
    (∀ now raw : String,
        Formatter.format RAM_policy now raw = none ↔ stof raw = none)
  ∧ (∀ now : String, Formatter.format RAM_policy now "" = none)
  ∧ (∀ now s : String, s.data.all isSpaceChar = true →
        Formatter.format RAM_policy now s = none)
  ∧ (∀ now : String, Formatter.format RAM_policy now "abc" = none)
  ∧ (∀ now : String,
        (Formatter.format RAM_policy now "NaN").map LogMessage.level
          = some severity_level.Info) := by
  refine ⟨?_, ?_, ?_, ?_, ?_⟩
  · intro now raw
    cases h : stof raw <;> simp [Formatter.format, h]
  · intro now
    simp [Formatter.format, show stof "" = none from by decide]
  · intro now s hs
    simp [Formatter.format, stof_of_all_space s hs]
  · intro now
    simp [Formatter.format, show stof "abc" = none from by decide]
  · intro now
    simp [Formatter.format, show stof "NaN" = some FVal.nan from by decide,
      inferSeverityV, FVal.geQ]

/-- Witness for C5 on a concrete whitespace-only string. -/
theorem claim_C5_parse_failure_witness :
    Formatter.format RAM_policy "ts" " \t " = none :=
  claim_C5_parse_failure.2.2.1 "ts" " \t " (by decide)

/-- Counterexample to C5 as stated: `"NaN"` does NOT yield empty — the
code's `std::stof` accepts the NaN spelling, so a record is produced. -/
theorem claim_C5_counterexample :
    (Formatter.format RAM_policy "ts" "NaN").isSome = true := by decide

/-- C7 (amended): under the CPU policy (warn 75, crit 90) the inputs
`45.2`, `80.0`, `95.0` produce severities Info, Warning, Critical, and the
message texts carry `std::to_string`'s fixed six-decimal rendering of the
parsed float32: `"Normal: 45.200001%"` (45.2 is not exactly representable;
its nearest float32 is 45.200000762939453125, which prints as 45.200001),
`"Warning: 80.000000%"` and `"Critical: 95.000000%"` — not the spec's
`"Normal: 45.2%"` / `"Warning: 80%"` / `"Critical: 95%"`. -/
theorem claim_C7_cpu_scenario :
    (Formatter.format CPU_policy "ts" "45.2").map LogMessage.level
        = some severity_level.Info
  ∧ (Formatter.format CPU_policy "ts" "80.0").map LogMessage.level
        = some severity_level.Warning
  ∧ (Formatter.format CPU_policy "ts" "95.0").map LogMessage.level
        = some severity_level.Critical
  ∧ (Formatter.format CPU_policy "ts" "45.2").map LogMessage.message
        = some "Normal: 45.200001%"
  ∧ (Formatter.format CPU_policy "ts" "80.0").map LogMessage.message
        = some "Warning: 80.000000%"
  ∧ (Formatter.format CPU_policy "ts" "95.0").map LogMessage.message
        = some "Critical: 95.000000%" := by
  refine ⟨by decide, by decide, by decide, by decide, by decide, by decide⟩

/-- Counterexample to C7 as stated: the message for input `80.0` is not
`"Warning: 80%"` (the code renders via `std::to_string`, which emits six
fixed decimals). -/
theorem claim_C7_counterexample :
    (Formatter.format CPU_policy "ts" "80.0").map LogMessage.message
      ≠ some "Warning: 80%" := by decide

/-- C8: for any thresholds with warning at most critical, `inferSeverity`
maps values at or above critical to Critical, values at or above warning
but below critical to Warning, all other values to Info, and is
non-decreasing under the ordering Info < Warning < Critical. -/
theorem claim_C8_severity (w c : ℚ) (h : w ≤ c) :
    (∀ v : ℚ, c ≤ v → inferSeverity w c v = severity_level.Critical)
  ∧ (∀ v : ℚ, w ≤ v → v < c → inferSeverity w c v = severity_level.Warning)
  ∧ (∀ v : ℚ, v < w → inferSeverity w c v = severity_level.Info)
  ∧ (∀ v v2 : ℚ, v ≤ v2 →
        sevRank (inferSeverity w c v) ≤ sevRank (inferSeverity w c v2)) := by
  refine ⟨?_, ?_, ?_, ?_⟩
  · intro v hv
    simp [inferSeverity, hv]
  · intro v h1 h2
    simp [inferSeverity, not_le.mpr h2, h1]
  · intro v hv
    have h1 : ¬ c ≤ v := by linarith
    have h2 : ¬ w ≤ v := by linarith
    simp [inferSeverity, h1, h2]
  · intro v v2 hvv
    by_cases hc1 : c ≤ v
    · have hc2 : c ≤ v2 := le_trans hc1 hvv
      simp [inferSeverity, hc1, hc2]
    · by_cases hw1 : w ≤ v
      · have hw2 : w ≤ v2 := le_trans hw1 hvv
        by_cases hc2 : c ≤ v2 <;>
          simp [inferSeverity, hc1, hw1, hc2, hw2, sevRank]
      · simp only [inferSeverity, if_neg hc1, if_neg hw1]
        exact Nat.zero_le _

/-- Witness for C8 at the CPU thresholds and value 95. -/
theorem claim_C8_severity_witness :
    inferSeverity 75 90 95 = severity_level.Critical :=
  (claim_C8_severity 75 90 (by norm_num)).1 95 (by norm_num)

/-- C10: whenever `Formatter::format` produces a record, its `app_name`
equals its `context` — both are built from
`magic_enum::enum_name(Policy::context)`. -/
theorem claim_C10_app_name_eq_context (P : PolicyData) (now raw : String)
    (msg : LogMessage) (h : Formatter.format P now raw = some msg) :
    msg.app_name = msg.context := by
  unfold Formatter.format at h
  cases hs : stof raw with
  | none =>
    rw [hs] at h
    simp at h
  | some v =>
    rw [hs] at h
    simp only [Option.some.injEq] at h
    subst h
    rfl

/-- Witness for C10 on the RAM policy and input 42. -/
theorem claim_C10_app_name_eq_context_witness :
    ({ app_name := "RAM", context := "RAM", message := "Normal: 42.000000%",
       level := severity_level.Info, time := "ts" } : LogMessage).app_name
      = ({ app_name := "RAM", context := "RAM", message := "Normal: 42.000000%",
           level := severity_level.Info, time := "ts" } : LogMessage).context :=
  claim_C10_app_name_eq_context RAM_policy "ts" "42"
    { app_name := "RAM", context := "RAM", message := "Normal: 42.000000%",
      level := severity_level.Info, time := "ts" } (by decide)

/-- C1 (code bug): the app constructor passes
`(buffer_capacity, thread_pool_size)` to the `LogManager` formals
`(thread_count, capacity)`, so at the defaults (buffer_capacity 100,
thread_pool_size 2) the buffer gets capacity 2 and the pool 100 workers —
swapped relative to the claim and to the parameter names; in general the
buffer capacity equals the configured thread count and vice versa. -/
theorem claim_C1_ctor_args_swapped :
    (TelemetryLoggingApp.makeLogger 100 2).messages.capacity = 2
  ∧ (TelemetryLoggingApp.makeLogger 100 2).pool.workers = 100
  ∧ (∀ bc tp : Nat,
        (TelemetryLoggingApp.makeLogger bc tp).messages.capacity = tp
      ∧ (TelemetryLoggingApp.makeLogger bc tp).pool.workers = bc) :=
  ⟨rfl, rfl, fun _ _ => ⟨rfl, rfl⟩⟩

/-- C2 (code bug): on the signal path the process dies inside
`signalHandler`'s `exit(0)`, so the writer thread's final
`logger->write()` never runs: the buffer still holds the pushed record and
the sink never receives it.  Had the cooperative path run instead (flag
cleared, process alive), that same final flush would have emptied the
buffer and delivered the record to the sink. -/
theorem claim_C2_signal_skips_final_drain :
    (writerFinalFlush (TelemetryLoggingApp.signalHandler c2state)).logger.messages.count = 1
  ∧ (writerFinalFlush (TelemetryLoggingApp.signalHandler c2state)).logger.sinksOut = [[]]
  ∧ (writerFinalFlush { c2state with isRunning := false }).logger.messages.count = 0
  ∧ (writerFinalFlush { c2state with isRunning := false }).logger.sinksOut = [[msgA]] := by
  refine ⟨by decide, by decide, by decide, by decide⟩

/-- C6 (amended): when the buffer is full, `LogManager::log` leaves the
buffer unchanged (the push is not re-attempted), appends exactly one
diagnostic line to standard output reading
"[LogManager] buffer full, message dropped", and schedules one drain task
on the pool; the code maintains no drop counter. -/
theorem claim_C6_drop_diagnostic (lm : LogManager) (m : LogMessage)
    (h : lm.messages.count = lm.messages.capacity) :
    (lm.log m).messages = lm.messages
  ∧ (lm.log m).stdoutLines
      = lm.stdoutLines ++ ["[LogManager] buffer full, message dropped\n"]
  ∧ (lm.log m).pendingTasks = lm.pendingTasks + 1 := by
  have hp := tryPush_of_full lm.messages m h
  refine ⟨?_, ?_, rfl⟩ <;> simp [LogManager.log, hp]

/-- Witness for C6 on a concrete full capacity-1 buffer. -/
theorem claim_C6_drop_diagnostic_witness :
    (((LogManager.ctor 2 1).log msgA).log msgA).messages
      = ((LogManager.ctor 2 1).log msgA).messages :=
  (claim_C6_drop_diagnostic ((LogManager.ctor 2 1).log msgA) msgA (by decide)).1

/-- Counterexample to C6 as stated: the diagnostic the code emits goes to
`std::cout` and reads "[LogManager] buffer full, message dropped", not
the claim's "[pipeline] buffer full, message dropped" on a
stderr-equivalent stream (and no drop counter exists to grow). -/
theorem claim_C6_counterexample :
    (((LogManager.ctor 2 1).log msgA).log msgA).stdoutLines
      = ["[LogManager] buffer full, message dropped\n"]
  ∧ "[LogManager] buffer full, message dropped\n"
      ≠ "[pipeline] buffer full, message dropped" := by
  refine ⟨by decide, by decide⟩

/-- C9 (amended): `FileSinkImpl`'s constructor opens with `std::ofstream`'s
default mode, truncating prior contents on success; subsequent writes
append the rendered records of this run in order; a failed open does not
fail construction — the sink's writes are then no-ops and the file is
untouched. -/
theorem claim_C9_file_sink (prior : String) (m : LogMessage) :
    (FileSinkImpl.ctor prior true).fileContents = ""
  ∧ (∀ s : FileSinkImpl, s.good = true →
        (s.write m).fileContents = s.fileContents ++ m.render
      ∧ (s.write m).good = true)
  ∧ (FileSinkImpl.ctor prior false).fileContents = prior
  ∧ (FileSinkImpl.ctor prior false).write m = FileSinkImpl.ctor prior false := by
  refine ⟨rfl, ?_, rfl, ?_⟩
  · intro s hs
    constructor
    · simp [FileSinkImpl.write, hs]
    · simp [FileSinkImpl.write, hs]
  · simp [FileSinkImpl.ctor, FileSinkImpl.write]

/-- Witness for C9: writing to a freshly constructed (truncated) sink. -/
theorem claim_C9_file_sink_witness :
    ((FileSinkImpl.ctor "old" true).write msgA).fileContents
      = (FileSinkImpl.ctor "old" true).fileContents ++ msgA.render
  ∧ ((FileSinkImpl.ctor "old" true).write msgA).good = true :=
  (claim_C9_file_sink "old" msgA).2.1 (FileSinkImpl.ctor "old" true) rfl

/-- Counterexample to C9 as stated: bytes present before construction are
not preserved — the default `ofstream` open truncates them. -/
theorem claim_C9_counterexample :
    (FileSinkImpl.ctor "previous-run record\n" true).fileContents
      ≠ "previous-run record\n" := by decide
